import Mathlib

/-!
Shallow embedding of `tools/linkedin_export_to_repo.py`.

The script has two parts: a source selector (`sniff_posts_csv`) that picks
the best CSV file in a LinkedIn export, and a record materializer (`main`'s
row loop) that writes one markdown file per post row.  Strings are modelled
by Lean `String` (a packed `List Char`, i.e. a sequence of Unicode code
points, exactly like a Python `str`); Python `dict` rows are association
lists; the output directory is an association list from filename to file
content; `datetime.now()` is an explicit `today` parameter.

All definitions are structurally recursive so that concrete runs reduce
inside the kernel (`decide` / `rfl`).
-/

namespace LinkedinExport

/-! ### Python string primitives -/

/-- Whitespace stripped by Python `str.strip()` (ASCII range; the model is
used on ASCII data). -/
def isPySpace (c : Char) : Bool :=
  c = ' ' || c = '\t' || c = '\n' || c = '\x0d' || c = '\x0b' || c = '\x0c'

/-- Trailing-whitespace removal on a reversed-traversal-free form:
`dropTrailWhile p l` removes the maximal suffix of `l` all of whose
elements satisfy `p`; the result is a prefix of `l`. -/
def dropTrailWhile (p : Char → Bool) : List Char → List Char
  | [] => []
  | c :: t =>
    match dropTrailWhile p t with
    | [] => if p c then [] else [c]
    | r => c :: r

/-- `str.strip()` on the underlying character list. -/
def stripChars (l : List Char) : List Char :=
  dropTrailWhile isPySpace (l.dropWhile isPySpace)

/-- Python `s.strip()`. -/
def pyStrip (s : String) : String := ⟨stripChars s.data⟩

/-- `str.lower()` on one character (ASCII range: A-Z ↦ a-z; the filenames,
headers and slugs this model is applied to are ASCII). -/
def lowerChar (c : Char) : Char :=
  if 'A' ≤ c && c ≤ 'Z' then Char.ofNat (c.toNat + 32) else c

/-- Python `s.lower()`. -/
def pyLower (s : String) : String := ⟨s.data.map lowerChar⟩

/-- Python substring test `needle in haystack` on character lists. -/
def hasSub (hay needle : List Char) : Bool :=
  if needle.isPrefixOf hay then true
  else
    match hay with
    | [] => false
    | _ :: t => hasSub t needle

/-- Python `needle in haystack` for strings. -/
def strContains (hay needle : String) : Bool := hasSub hay.data needle.data

/-- `pathlib.Path.name`: the final path component (split on `/`). -/
def baseName (s : String) : String :=
  ⟨((s.data.reverse.takeWhile (fun c => c ≠ '/')).reverse)⟩

/-- Python `s[:n]` (slicing by code points). -/
def strTake (s : String) (n : Nat) : String := ⟨s.data.take n⟩

/-- Lexicographic (code-point) comparison, Python `<` on `str`. -/
def lexLt : List Char → List Char → Bool
  | [], [] => false
  | [], _ :: _ => true
  | _ :: _, [] => false
  | a :: as, b :: bs =>
    if a.toNat < b.toNat then true
    else if b.toNat < a.toNat then false
    else lexLt as bs

/-- Stable-insert for ascending lexicographic sort. -/
def insertAsc (s : String) : List String → List String
  | [] => [s]
  | t :: ts => if lexLt t.data s.data then t :: insertAsc s ts else s :: t :: ts

/-- Python `sorted` on strings (stable, ascending by code points). -/
def sortedStrs (l : List String) : List String :=
  l.foldr insertAsc [] |>.reverse |>.reverse

/-! ### SHA-1 (`hashlib.sha1(...).hexdigest()`) -/

/-- Truncate to a 32-bit word. -/
def w32 (n : Nat) : Nat := n % 4294967296

/-- 32-bit left rotation. -/
def rotl (k n : Nat) : Nat := w32 ((n <<< k) ||| (n >>> (32 - k)))

/-- UTF-8 encoding of one character (Python `str.encode("utf-8")`). -/
def utf8Char (c : Char) : List Nat :=
  let n := c.toNat
  if n < 128 then [n]
  else if n < 2048 then [192 ||| (n >>> 6), 128 ||| (n &&& 63)]
  else if n < 65536 then
    [224 ||| (n >>> 12), 128 ||| ((n >>> 6) &&& 63), 128 ||| (n &&& 63)]
  else
    [240 ||| (n >>> 18), 128 ||| ((n >>> 12) &&& 63),
     128 ||| ((n >>> 6) &&& 63), 128 ||| (n &&& 63)]

/-- UTF-8 bytes of a string. -/
def strBytes (s : String) : List Nat := (s.data.map utf8Char).flatten

/-- Big-endian bytes of a 64-bit quantity. -/
def be8 (n : Nat) : List Nat :=
  [(n >>> 56) &&& 255, (n >>> 48) &&& 255, (n >>> 40) &&& 255,
   (n >>> 32) &&& 255, (n >>> 24) &&& 255, (n >>> 16) &&& 255,
   (n >>> 8) &&& 255, n &&& 255]

/-- Big-endian bytes of a 32-bit word. -/
def be4 (n : Nat) : List Nat :=
  [(n >>> 24) &&& 255, (n >>> 16) &&& 255, (n >>> 8) &&& 255, n &&& 255]

/-- SHA-1 message padding: `0x80`, zeros to 56 mod 64, 64-bit bit length. -/
def sha1pad (msg : List Nat) : List Nat :=
  msg ++ [128] ++ List.replicate ((119 - msg.length % 64) % 64) 0
      ++ be8 (8 * msg.length)

/-- Split into 64-byte chunks (fuel-driven structural recursion). -/
def chunksAux : Nat → List Nat → List (List Nat)
  | 0, _ => []
  | _ + 1, [] => []
  | fuel + 1, l@(_ :: _) => l.take 64 :: chunksAux fuel (l.drop 64)

def chunks64 (l : List Nat) : List (List Nat) := chunksAux l.length l

/-- Pack bytes into big-endian 32-bit words. -/
def packWords : List Nat → List Nat
  | a :: b :: c :: d :: rest =>
    (a * 16777216 + b * 65536 + c * 256 + d) :: packWords rest
  | _ => []

/-- Message-schedule extension, keeping the schedule most-recent-first. -/
def extRev : Nat → List Nat → List Nat
  | 0, r => r
  | n + 1, r =>
    extRev n
      (rotl 1 (r.getD 2 0 ^^^ r.getD 7 0 ^^^ r.getD 13 0 ^^^ r.getD 15 0) :: r)

/-- The 80-word message schedule of one chunk. -/
def schedule (ws : List Nat) : List Nat := (extRev 64 ws.reverse).reverse

/-- One SHA-1 round. -/
def sha1round (i : Nat) (st : Nat × Nat × Nat × Nat × Nat) (wi : Nat) :
    Nat × Nat × Nat × Nat × Nat :=
  let (a, b, c, d, e) := st
  let f :=
    if i < 20 then (b &&& c) ||| ((b ^^^ 4294967295) &&& d)
    else if i < 40 then b ^^^ c ^^^ d
    else if i < 60 then (b &&& c) ||| (b &&& d) ||| (c &&& d)
    else b ^^^ c ^^^ d
  let k :=
    if i < 20 then 1518500249
    else if i < 40 then 1859775393
    else if i < 60 then 2400959708
    else 3395469782
  let temp := w32 (rotl 5 a + f + e + k + wi)
  (temp, a, rotl 30 b, c, d)

def roundsAux (i : Nat) (st : Nat × Nat × Nat × Nat × Nat) :
    List Nat → Nat × Nat × Nat × Nat × Nat
  | [] => st
  | w :: ws => roundsAux (i + 1) (sha1round i st w) ws

/-- Process one 64-byte chunk into the running state. -/
def sha1chunk (h : Nat × Nat × Nat × Nat × Nat) (chunk : List Nat) :
    Nat × Nat × Nat × Nat × Nat :=
  let (h0, h1, h2, h3, h4) := h
  let (a, b, c, d, e) := roundsAux 0 h (schedule (packWords chunk))
  (w32 (h0 + a), w32 (h1 + b), w32 (h2 + c), w32 (h3 + d), w32 (h4 + e))

/-- The 20 digest bytes of a byte message. -/
def sha1bytes (msg : List Nat) : List Nat :=
  let h :=
    (chunks64 (sha1pad msg)).foldl sha1chunk
      (1732584193, 4023233417, 2562383102, 271733878, 3285377520)
  be4 h.1 ++ be4 h.2.1 ++ be4 h.2.2.1 ++ be4 h.2.2.2.1 ++ be4 h.2.2.2.2

/-- Lowercase hex digit. -/
def hexChar (n : Nat) : Char :=
  if n < 10 then Char.ofNat (48 + n) else Char.ofNat (87 + n)

/-- Two lowercase hex digits of a byte. -/
def byteHex (b : Nat) : List Char := [hexChar (b / 16 % 16), hexChar (b % 16)]

/-- `sha1` from the script: `hashlib.sha1(text.encode("utf-8")).hexdigest()`. -/
def sha1 (text : String) : String :=
  ⟨((sha1bytes (strBytes text)).map byteHex).flatten⟩

/-! ### `parse_date`

`datetime.strptime` compiles each format to a regex and requires a full
match.  The numeric directives admit one- or two-digit matches
(`%m` → `1[0-2]|0[1-9]|[1-9]`, `%d` → `3[01]|[12]\d|0[1-9]|[1-9]`,
`%H` → `2[0-3]|[0-1]\d|\d`, `%M`/`%S` → `[0-5]\d|\d`, `%Y` → `\d{4}`),
with the two-digit alternative preferred and regex backtracking between
field widths; a literal space in the format matches one or more whitespace
characters.  `datetime(...)` then validates the calendar date
(`ValueError` on day overflow or year 0 is caught and the next format is
tried). -/

def digitVal (c : Char) : Nat := c.toNat - 48

/-- Alternatives (in regex preference order) for a 1-or-2-digit numeric
directive: value and remaining input. -/
def numAlts (ok2 ok1 : Nat → Bool) : List Char → List (Nat × List Char)
  | c1 :: c2 :: rest =>
    (if c1.isDigit && c2.isDigit && ok2 (digitVal c1 * 10 + digitVal c2) then
      [(digitVal c1 * 10 + digitVal c2, rest)]
    else []) ++
    (if c1.isDigit && ok1 (digitVal c1) then [(digitVal c1, c2 :: rest)] else [])
  | [c1] => if c1.isDigit && ok1 (digitVal c1) then [(digitVal c1, ([] : List Char))] else []
  | [] => []

def okM2 (v : Nat) : Bool := 1 ≤ v && v ≤ 12
def okM1 (v : Nat) : Bool := 1 ≤ v && v ≤ 9
def okD2 (v : Nat) : Bool := 1 ≤ v && v ≤ 31
def okH2 (v : Nat) : Bool := v ≤ 23
def okMS2 (v : Nat) : Bool := v ≤ 59
def okAny1 (_ : Nat) : Bool := true

/-- `%Y`: exactly four digits. -/
def year4 : List Char → Option (Nat × List Char)
  | a :: b :: c :: d :: rest =>
    if a.isDigit && b.isDigit && c.isDigit && d.isDigit then
      some (((digitVal a * 10 + digitVal b) * 10 + digitVal c) * 10 + digitVal d, rest)
    else none
  | _ => none

/-- A literal space in a strptime format: one or more whitespace chars. -/
def ws1 : List Char → Option (List Char)
  | c :: rest => if isPySpace c then some (rest.dropWhile isPySpace) else none
  | [] => none

/-- ` %H:%M:%S` suffix (must consume the rest of the input). -/
def timeTail (cs : List Char) : Option Unit :=
  match ws1 cs with
  | none => none
  | some r1 =>
    (numAlts okH2 okAny1 r1).findSome? fun hr =>
      match hr.2 with
      | ':' :: r2 =>
        (numAlts okMS2 okAny1 r2).findSome? fun mr =>
          match mr.2 with
          | ':' :: r3 =>
            (numAlts okMS2 okAny1 r3).findSome? fun sr =>
              if sr.2.isEmpty then some () else none
          | _ => none
      | _ => none

/-- `%Y-%m-%d`, full match. -/
def pYmd (cs : List Char) : Option (Nat × Nat × Nat) :=
  match year4 cs with
  | some (y, r1) =>
    (match r1 with
     | '-' :: r2 =>
       (numAlts okM2 okM1 r2).findSome? fun mrest =>
         match mrest.2 with
         | '-' :: r3 =>
           (numAlts okD2 okM1 r3).findSome? fun drest =>
             if drest.2.isEmpty then some (y, mrest.1, drest.1) else none
         | _ => none
     | _ => none)
  | none => none

/-- `%d/%m/%Y`, full match. -/
def pDmy (cs : List Char) : Option (Nat × Nat × Nat) :=
  (numAlts okD2 okM1 cs).findSome? fun drest =>
    match drest.2 with
    | '/' :: r1 =>
      (numAlts okM2 okM1 r1).findSome? fun mrest =>
        match mrest.2 with
        | '/' :: r2 =>
          (match year4 r2 with
           | some (y, r3) => if r3.isEmpty then some (y, mrest.1, drest.1) else none
           | none => none)
        | _ => none
    | _ => none

/-- `%m/%d/%Y`, full match. -/
def pMdy (cs : List Char) : Option (Nat × Nat × Nat) :=
  (numAlts okM2 okM1 cs).findSome? fun mrest =>
    match mrest.2 with
    | '/' :: r1 =>
      (numAlts okD2 okM1 r1).findSome? fun drest =>
        match drest.2 with
        | '/' :: r2 =>
          (match year4 r2 with
           | some (y, r3) => if r3.isEmpty then some (y, mrest.1, drest.1) else none
           | none => none)
        | _ => none
    | _ => none

/-- `%Y-%m-%d %H:%M:%S`, full match. -/
def pYmdHms (cs : List Char) : Option (Nat × Nat × Nat) :=
  match year4 cs with
  | some (y, r1) =>
    (match r1 with
     | '-' :: r2 =>
       (numAlts okM2 okM1 r2).findSome? fun mrest =>
         match mrest.2 with
         | '-' :: r3 =>
           (numAlts okD2 okM1 r3).findSome? fun drest =>
             match timeTail drest.2 with
             | some _ => some (y, mrest.1, drest.1)
             | none => none
         | _ => none
     | _ => none)
  | none => none

/-- `%d/%m/%Y %H:%M:%S`, full match. -/
def pDmyHms (cs : List Char) : Option (Nat × Nat × Nat) :=
  (numAlts okD2 okM1 cs).findSome? fun drest =>
    match drest.2 with
    | '/' :: r1 =>
      (numAlts okM2 okM1 r1).findSome? fun mrest =>
        match mrest.2 with
        | '/' :: r2 =>
          (match year4 r2 with
           | some (y, r3) =>
             (match timeTail r3 with
              | some _ => some (y, mrest.1, drest.1)
              | none => none)
           | none => none)
        | _ => none
    | _ => none

def isLeap (y : Nat) : Bool := y % 4 = 0 && (y % 100 ≠ 0 || y % 400 = 0)

def daysInMonth (y m : Nat) : Nat :=
  if m = 2 then (if isLeap y then 29 else 28)
  else if m = 4 || m = 6 || m = 9 || m = 11 then 30
  else 31

/-- The checks done by the `datetime(...)` constructor beyond what the
regex guarantees: `MINYEAR = 1` and day within the month. -/
def validYmd (y m d : Nat) : Bool := 1 ≤ y && d ≤ daysInMonth y m

def tryFmt (p : List Char → Option (Nat × Nat × Nat)) (cs : List Char) :
    Option (Nat × Nat × Nat) :=
  match p cs with
  | some (y, m, d) => if validYmd y m d then some (y, m, d) else none
  | none => none

/-- The for-loop over the five formats in `parse_date`. -/
def tryFormats (cs : List Char) : Option (Nat × Nat × Nat) :=
  (tryFmt pYmd cs).orElse fun _ =>
  (tryFmt pDmy cs).orElse fun _ =>
  (tryFmt pMdy cs).orElse fun _ =>
  (tryFmt pYmdHms cs).orElse fun _ =>
  tryFmt pDmyHms cs

def digitChar (n : Nat) : Char := Char.ofNat (48 + n % 10)

def pad2 (n : Nat) : List Char := [digitChar (n / 10), digitChar n]

def pad4 (n : Nat) : List Char :=
  [digitChar (n / 1000), digitChar (n / 100), digitChar (n / 10), digitChar n]

/-- `%Y` as rendered by CPython's `strftime` on glibc: the year as a plain
decimal number, NOT zero-padded (`datetime(500, 1, 2)` renders as `"500"`).
The `%Y` directive of `strptime` guarantees `y ≤ 9999`, so four explicit
width cases cover the reachable domain. -/
def fmtY (y : Nat) : List Char :=
  if y < 10 then [digitChar y]
  else if y < 100 then [digitChar (y / 10), digitChar y]
  else if y < 1000 then [digitChar (y / 100), digitChar (y / 10), digitChar y]
  else pad4 y

/-- `strftime("%Y-%m-%d")`: month and day zero-padded to two digits, the
year unpadded (see `fmtY`). -/
def fmtYmd (y m d : Nat) : String := ⟨fmtY y ++ '-' :: pad2 m ++ '-' :: pad2 d⟩

/-- `re.match(r"^\d{4}-\d{2}-\d{2}", s)`. -/
def leadingDatePat : List Char → Bool
  | a :: b :: c :: d :: e :: f :: g :: h :: i :: j :: _ =>
    a.isDigit && b.isDigit && c.isDigit && d.isDigit && e = '-' &&
    f.isDigit && g.isDigit && h = '-' && i.isDigit && j.isDigit
  | _ => false

/-- `parse_date` from the script; `today` models
`datetime.now().strftime("%Y-%m-%d")` and the argument may be `None`
(`row.get` of a missing column), handled by `(s or "")`. -/
def parse_date (today : String) (s0 : Option String) : String :=
  let s := pyStrip (s0.getD "")
  match tryFormats s.data with
  | some (y, m, d) => fmtYmd y m d
  | none => if leadingDatePat s.data then strTake s 10 else today

/-! ### `slugify` -/

def isSlugAl (c : Char) : Bool := ('a' ≤ c && c ≤ 'z') || ('0' ≤ c && c ≤ '9')

/-- `re.sub(r"[^a-z0-9]+", "-", s)`: each maximal run of non-alphanumerics
becomes a single hyphen.  The flag records whether the previous character
was part of such a run. -/
def collapseAux : Bool → List Char → List Char
  | _, [] => []
  | prevH, c :: t =>
    if isSlugAl c then c :: collapseAux false t
    else if prevH then collapseAux true t
    else '-' :: collapseAux true t

/-- `re.sub(r"-\x7b2,\x7d", "-", s)`: runs of two or more hyphens become
one. -/
def squashAux : Bool → List Char → List Char
  | _, [] => []
  | prevH, c :: t =>
    if c = '-' then (if prevH then squashAux true t else '-' :: squashAux true t)
    else c :: squashAux false t

/-- `s.strip("-")`. -/
def stripHyphChars (l : List Char) : List Char :=
  dropTrailWhile (fun c => c = '-') (l.dropWhile (fun c => c = '-'))

/-- `slugify` from the script. -/
def slugify (s : String) : String :=
  let l := (stripChars s.data).map lowerChar
  let l := collapseAux false l
  let l := squashAux false l
  let l := stripHyphChars l
  if l.isEmpty then "post" else ⟨l.take 80⟩

/-! ### Source selector (`sniff_posts_csv`) -/

def ALLOWED_FILE_HINTS : List String :=
  ["posts", "shares", "updates", "ugc", "article", "activity"]

def BLOCKED_FILE_HINTS : List String :=
  ["message", "messages", "inmail", "learning", "coach", "role_play",
   "guide_messages", "whatsapp", "email addresses", "phonenumbers"]

def TEXT_COL_CANDIDATES : List String :=
  ["content", "text", "sharecommentary", "commentary", "post", "body",
   "article text", "articletext", "update text", "updatetext"]

def DATE_COL_CANDIDATES : List String :=
  ["date", "timestamp", "time", "created at", "createdat"]

def URL_COL_CANDIDATES : List String := ["url", "link", "permalink"]

def is_blocked_csv (path : String) : Bool :=
  BLOCKED_FILE_HINTS.any (fun k => strContains (pyLower (baseName path)) k)

def is_allowed_csv (path : String) : Bool :=
  ALLOWED_FILE_HINTS.any (fun k => strContains (pyLower (baseName path)) k)

/-- One CSV row as produced by `csv.DictReader`. -/
abbrev Row := List (String × String)

/-- Python `row.get(k)`. -/
def dictGet (row : Row) (k : String) : Option String :=
  (row.find? (fun kv => kv.1 == k)).map (·.2)

/-- The parsed content of a CSV file: `reader.fieldnames` (`none` for an
empty file) and the data rows. -/
structure Csv where
  fieldnames : Option (List String)
  rows : List Row
deriving DecidableEq

/-- A CSV file under the export root.  `path` is relative to the root;
`data = none` models a file whose opening or inspection raises an
exception (the `try`/`except` in `sniff_posts_csv`). -/
structure CsvFile where
  path : String
  data : Option Csv
deriving DecidableEq

/-- `text = (row.get(text_col) or "").strip()`. -/
def rowText (tc : String) (row : Row) : String :=
  pyStrip ((dictGet row tc).getD "")

/-- `headers = \x7bh.strip().lower(): h for h in reader.fieldnames\x7d`
(later duplicates overwrite earlier ones, hence last-match lookup). -/
def headersOf (fns : List String) : List (String × String) :=
  fns.map (fun h2 => (pyLower (pyStrip h2), h2))

def lookupLast (m : List (String × String)) (k : String) : Option String :=
  ((m.filter (fun kv => kv.1 == k)).getLast?).map (·.2)

/-- First candidate column name that occurs among the headers, mapped to
the original header spelling. -/
def firstCol (m : List (String × String)) : List String → Option String
  | [] => none
  | c :: cs =>
    match lookupLast m c with
    | some orig => some orig
    | none => firstCol m cs

/-- Count of sampled rows with non-empty text (the loop caps at 3000). -/
def countNonempty (tc : String) (rows : List Row) : Nat :=
  ((rows.take 3000).filter (fun r => decide (rowText tc r ≠ ""))).length

structure Cand where
  score : Nat
  path : String
  text_col : String
  date_col : Option String
  url_col : Option String
deriving DecidableEq

/-- The body of the per-file loop in `sniff_posts_csv`: `none` when the
file is skipped, otherwise the appended candidate tuple. -/
def candidateOf (f : CsvFile) : Option Cand :=
  if is_blocked_csv f.path then none
  else if !is_allowed_csv f.path then none
  else
    match f.data with
    | none => none
    | some csv =>
      match csv.fieldnames with
      | none => none
      | some fns =>
        let hs := headersOf fns
        match firstCol hs TEXT_COL_CANDIDATES with
        | none => none
        | some tcol =>
          let dcol := firstCol hs DATE_COL_CANDIDATES
          let ucol := firstCol hs URL_COL_CANDIDATES
          let ne := countNonempty tcol csv.rows
          if ne < 1 then none
          else
            some ⟨ne + (if dcol.isSome then 10 else 0) +
                    (if ucol.isSome then 5 else 0),
                  f.path, tcol, dcol, ucol⟩

/-- Stable insertion for a descending sort by score: a later candidate is
placed after every earlier one whose score is at least as large
(`list.sort(key=lambda x: x[0], reverse=True)` is stable). -/
def insertDesc (c : Cand) : List Cand → List Cand
  | [] => [c]
  | d :: ds => if c.score ≤ d.score then d :: insertDesc c ds else c :: d :: ds

def sortCands (l : List Cand) : List Cand :=
  l.foldl (fun acc c => insertDesc c acc) []

def joinSep (sep : String) : List String → String
  | [] => ""
  | [x] => x
  | x :: y :: ys => x ++ sep ++ joinSep sep (y :: ys)

/-- The diagnostic message raised when no candidate survives. -/
def noSuitableMsg (export_dir : String) (files : List CsvFile) : String :=
  "No suitable Posts/Shares/Updates/Articles CSV found in this LinkedIn export.\nThis archive likely does NOT include your feed posts/shares.\nCSV files seen under "
    ++ export_dir ++ ":\n- "
    ++ joinSep "\n- " ((sortedStrs (files.map (·.path))).take 80)

abbrev SniffResult := String × String × Option String × Option String

/-- `sniff_posts_csv`: `files` is `list(export_dir.rglob("*.csv"))` in
enumeration order.  The `headD c0` default is never used since sorting
preserves non-emptiness. -/
def sniff_posts_csv (files : List CsvFile) (export_dir : String) :
    Except String SniffResult :=
  if files.isEmpty then .error ("No CSV files found under " ++ export_dir)
  else
    match files.filterMap candidateOf with
    | [] => .error (noSuitableMsg export_dir files)
    | c0 :: rest =>
      let c := (sortCands (c0 :: rest)).headD c0
      .ok (c.path, c.text_col, c.date_col, c.url_col)

/-! ### Record materializer (the row loop of `main`) -/

/-- Characters at which `str.splitlines` breaks. -/
def isLineBreakChar (c : Char) : Bool :=
  c = '\n' || c = '\x0d' || c = '\x0b' || c = '\x0c' || c = '\x1c' ||
  c = '\x1d' || c = '\x1e' || c = '\x85' || c = '\u2028' || c = '\u2029'

/-- `text.splitlines()[0]` for non-empty `text`. -/
def firstLineStr (s : String) : String :=
  ⟨s.data.takeWhile (fun c => !isLineBreakChar c)⟩

/-- The raw date value handed to `parse_date`:
`row.get(date_col) if date_col else ""`. -/
def rowDateRaw (dc : Option String) (row : Row) : Option String :=
  match dc with
  | some d => dictGet row d
  | none => some ""

/-- `date = parse_date(row.get(date_col) if date_col else "")`. -/
def rowDateStr (today : String) (dc : Option String) (row : Row) : String :=
  parse_date today (rowDateRaw dc row)

/-- `url = (row.get(url_col) or "").strip() if url_col else ""`. -/
def rowUrl (uc : Option String) (row : Row) : String :=
  match uc with
  | some u => pyStrip ((dictGet row u).getD "")
  | none => ""

/-- `slug = slugify(text.splitlines()[0][:80])`. -/
def rowSlug (tc : String) (row : Row) : String :=
  slugify (strTake (firstLineStr (rowText tc row)) 80)

/-- `digest = sha1(text)[:10]`. -/
def rowDigest (tc : String) (row : Row) : String :=
  strTake (sha1 (rowText tc row)) 10

/-- `fname = f"\x7bdate\x7d-\x7bslug\x7d-\x7bdigest\x7d.md"`. -/
def rowFname (today tc : String) (dc : Option String) (row : Row) : String :=
  rowDateStr today dc row ++ "-" ++ rowSlug tc row ++ "-" ++ rowDigest tc row
    ++ ".md"

/-- The front-matter lines (`source:` only for a non-empty URL). -/
def contentLines (date url text : String) : List String :=
  ["---", "date: " ++ date, "platform: linkedin"] ++
  (if url = "" then [] else ["source: " ++ url]) ++
  ["---", "", text, ""]

/-- `content = "\n".join(lines)`. -/
def mkContent (date url text : String) : String :=
  joinSep "\n" (contentLines date url text)

def rowContent (today tc : String) (dc uc : Option String) (row : Row) : String :=
  mkContent (rowDateStr today dc row) (rowUrl uc row) (rowText tc row)

/-- The output directory as a map from filename to stored file text.
`path.write_text(content)` stores `content` verbatim (text mode translates
`"\n"` to `os.linesep`, which is `"\n"` on the POSIX systems this tool
runs on, and leaves `"\r"` characters in place). -/
abbrev FS := List (String × String)

def fsRead : FS → String → Option String
  | [], _ => none
  | (k', v') :: t, k => if k' = k then some v' else fsRead t k

def fsWrite : FS → String → String → FS
  | [], k, v => [(k, v)]
  | (k', v') :: t, k, v =>
    if k' = k then (k, v) :: t else (k', v') :: fsWrite t k v

/-- Universal-newline translation performed by `path.read_text()`
(text mode with `newline=None`): `"\r\n"` and lone `"\r"` both become
`"\n"`.  Reading back a just-written file is therefore NOT the identity
when the content contains a carriage return. -/
def univNLChars : List Char → List Char
  | [] => []
  | '\x0d' :: '\n' :: t => '\n' :: univNLChars t
  | '\x0d' :: t => '\n' :: univNLChars t
  | c :: t => c :: univNLChars t

def univNL (s : String) : String := ⟨univNLChars s.data⟩

structure MState where
  fs : FS
  created : Nat
  updated : Nat
deriving DecidableEq

/-- One iteration of the row loop in `main`.  The existence check is a
lookup; `old = path.read_text(...)` applies universal-newline translation
to the stored text (see `univNL`) before the `old == content`
comparison. -/
def step (today tc : String) (dc uc : Option String) (st : MState) (row : Row) :
    MState :=
  if rowText tc row = "" then st
  else
    let fname := rowFname today tc dc row
    let content := rowContent today tc dc uc row
    match fsRead st.fs fname with
    | some stored =>
      if univNL stored = content then st
      else ⟨fsWrite st.fs fname content, st.created, st.updated + 1⟩
    | none => ⟨fsWrite st.fs fname content, st.created + 1, st.updated⟩

/-- The whole row loop: counters start at zero each run. -/
def runMaterializer (today tc : String) (dc uc : Option String)
    (rows : List Row) (fs0 : FS) : MState :=
  rows.foldl (step today tc dc uc) ⟨fs0, 0, 0⟩

/-! ### Specification-side definitions used for refinement statements -/

/-- The spec's description of the selection rule, written directly from its
words: keep the earlier candidate unless a later one scores strictly
higher (maximal score, ties broken by enumeration order). -/
def firstMaxCand (c : Cand) (cs : List Cand) : Cand :=
  cs.foldl (fun a b => if b.score > a.score then b else a) c

/-- Shape check `YYYY-MM-DD`: ten characters, digits and hyphens in the
right places. -/
def isDateShape (s : String) : Bool :=
  match s.data with
  | [a, b, c, d, e, f, g, h, i, j] =>
    a.isDigit && b.isDigit && c.isDigit && d.isDigit && e = '-' &&
    f.isDigit && g.isDigit && h = '-' && i.isDigit && j.isDigit
  | _ => false

/-- No two adjacent hyphens. -/
def noHH : List Char → Bool
  | a :: b :: t => !(a = '-' && b = '-') && noHH (b :: t)
  | _ => true

/-- The head (if any) is not a hyphen. -/
def headNotH : List Char → Bool
  | [] => true
  | c :: _ => !(c = '-')

/-- The spec's well-formedness of a slug: non-empty, at most 80 chars,
only lowercase alphanumerics and hyphens, no leading/trailing hyphen and
no run of two hyphens. -/
def slugOK (s : String) : Bool :=
  !s.data.isEmpty && s.data.length ≤ 80 &&
  s.data.all (fun c => isSlugAl c || c = '-') &&
  headNotH s.data && headNotH s.data.reverse && noHH s.data

/-- The spec's well-formedness of a digest: exactly ten lowercase hex
characters. -/
def digestOK (s : String) : Bool :=
  s.data.length = 10 && s.data.all (fun c => c.isDigit || ('a' ≤ c && c ≤ 'f'))

end LinkedinExport

namespace LinkedinExport

/-! ## Theorems -/

/-! ### C6: empty or whitespace-only text rows are skipped -/

/-- C6: for every row whose text field is empty or whitespace-only after
trimming, the materializer step produces no output file and increments
neither counter (the state is unchanged). -/
theorem c6_empty_text_skipped (today tc : String) (dc uc : Option String)
    (st : MState) (row : Row) (h : rowText tc row = "") :
    step today tc dc uc st row = st := by
  simp [step, h]

theorem c6_witness :
    rowText "Text" [("Text", " \t "), ("Date", "2024-01-01")] = "" ∧
    step "2026-10-12" "Text" (some "Date") none ⟨[], 3, 4⟩
      [("Text", " \t "), ("Date", "2024-01-01")] = ⟨[], 3, 4⟩ :=
  ⟨by decide,
   c6_empty_text_skipped "2026-10-12" "Text" (some "Date") none ⟨[], 3, 4⟩
     [("Text", " \t "), ("Date", "2024-01-01")] (by decide)⟩

/-! ### C4: parse_date examples -/

/-- C4: `parse_date` normalizes "2024-03-05", "05/03/2024" (day/month
order, because `%d/%m/%Y` is tried before `%m/%d/%Y`) and
"2024-03-05 10:00:00" to "2024-03-05", and returns the current run date
for "not-a-date". -/
theorem c4_parse_date_examples (today : String) :
    parse_date today (some "2024-03-05") = "2024-03-05" ∧
    parse_date today (some "05/03/2024") = "2024-03-05" ∧
    parse_date today (some "2024-03-05 10:00:00") = "2024-03-05" ∧
    parse_date today (some "not-a-date") = today :=
  ⟨rfl, rfl, rfl, rfl⟩

/-! ### C5: fallback behaviour of parse_date -/

/-- C5: when the (stripped) value matches none of the five formats,
`parse_date` returns its leading ten characters when it begins with the
`\d\x7b4\x7d-\d\x7b2\x7d-\d\x7b2\x7d` pattern, and the current run date
otherwise. -/
theorem c5_fallback (today s : String)
    (h : tryFormats (pyStrip s).data = none) :
    parse_date today (some s) =
      (if leadingDatePat (pyStrip s).data then strTake (pyStrip s) 10
       else today) := by
  simp [parse_date, h]

theorem c5_witness :
    (tryFormats (pyStrip "2024-99-99").data = none ∧
      parse_date "2026-10-12" (some "2024-99-99") =
        (if leadingDatePat (pyStrip "2024-99-99").data
         then strTake (pyStrip "2024-99-99") 10 else "2026-10-12")) ∧
    (tryFormats (pyStrip "nope").data = none ∧
      parse_date "2026-10-12" (some "nope") =
        (if leadingDatePat (pyStrip "nope").data
         then strTake (pyStrip "nope") 10 else "2026-10-12")) :=
  ⟨⟨by decide, c5_fallback "2026-10-12" "2024-99-99" (by decide)⟩,
   ⟨by decide, c5_fallback "2026-10-12" "nope" (by decide)⟩⟩

/-! ### Selector lemmas -/

theorem insertDesc_ne_nil (c : Cand) (l : List Cand) : insertDesc c l ≠ [] := by
  cases l with
  | nil => simp [insertDesc]
  | cons d ds =>
    simp only [insertDesc]
    split <;> simp

theorem headD_insertDesc (c x : Cand) (l : List Cand) :
    (insertDesc c l).headD x =
      (match l with
       | [] => c
       | d :: _ => if c.score > d.score then c else d) := by
  cases l with
  | nil => simp [insertDesc]
  | cons d ds =>
    simp only [insertDesc]
    split
    · next hle => simp [Nat.not_lt_of_le hle]
    · next hgt => simp [Nat.lt_of_not_le hgt]

theorem foldl_insertDesc_headD (l : List Cand) :
    ∀ (acc : List Cand) (a x : Cand), acc ≠ [] → acc.headD x = a →
      (l.foldl (fun acc c => insertDesc c acc) acc).headD x =
        l.foldl (fun m b => if b.score > m.score then b else m) a := by
  induction l with
  | nil =>
    intro acc a x _ h
    simpa using h
  | cons c t ih =>
    intro acc a x hne h
    simp only [List.foldl_cons]
    apply ih _ _ _ (insertDesc_ne_nil c acc)
    rw [headD_insertDesc]
    cases acc with
    | nil => exact absurd rfl hne
    | cons d ds =>
      simp only [List.headD_cons] at h
      simp [h]

theorem sortCands_headD (c0 x : Cand) (rest : List Cand) :
    (sortCands (c0 :: rest)).headD x = firstMaxCand c0 rest := by
  unfold sortCands firstMaxCand
  simp only [List.foldl_cons]
  exact foldl_insertDesc_headD rest (insertDesc c0 []) c0 x
    (insertDesc_ne_nil c0 []) (by simp [insertDesc])

theorem firstMaxCand_cons (c b : Cand) (t : List Cand) :
    firstMaxCand c (b :: t) =
      firstMaxCand (if b.score > c.score then b else c) t := rfl

theorem firstMaxCand_le (cs : List Cand) :
    ∀ c : Cand, ∀ d ∈ c :: cs, d.score ≤ (firstMaxCand c cs).score := by
  induction cs with
  | nil =>
    intro c d hd
    simp only [List.mem_singleton] at hd
    subst hd
    exact Nat.le_refl _
  | cons b t ih =>
    intro c d hd
    rw [firstMaxCand_cons]
    have hupd : ∀ e : Cand, e = c ∨ e = b →
        e.score ≤ (if b.score > c.score then b else c).score := by
      intro e he
      rcases he with he | he <;> subst he <;> split <;>
        first
          | exact Nat.le_refl _
          | next hh => exact Nat.le_of_lt hh
          | next hh => exact Nat.le_of_not_lt hh
    rcases List.mem_cons.mp hd with hd | hd
    · exact Nat.le_trans (hupd d (Or.inl hd))
        (ih _ _ (List.mem_cons_self _ _))
    · rcases List.mem_cons.mp hd with hd | hd
      · exact Nat.le_trans (hupd d (Or.inr hd))
          (ih _ _ (List.mem_cons_self _ _))
      · exact ih _ _ (List.mem_cons_of_mem _ hd)

theorem firstMaxCand_decomp (cs : List Cand) :
    ∀ c : Cand, ∃ l₁ l₂, c :: cs = l₁ ++ firstMaxCand c cs :: l₂ ∧
      ∀ d ∈ l₁, d.score < (firstMaxCand c cs).score := by
  induction cs with
  | nil =>
    intro c
    exact ⟨[], [], rfl, by simp⟩
  | cons b t ih =>
    intro c
    rw [firstMaxCand_cons]
    by_cases hbc : b.score > c.score
    · rw [if_pos hbc]
      obtain ⟨m₁, m₂, hm, hlt⟩ := ih b
      cases m₁ with
      | nil =>
        simp only [List.nil_append, List.cons.injEq] at hm
        obtain ⟨hfb, ht⟩ := hm
        refine ⟨[c], m₂, ?_, ?_⟩
        · rw [List.singleton_append, ← hfb, ← ht]
        · intro d hd
          simp only [List.mem_singleton] at hd
          rw [hd, ← hfb]
          exact hbc
      | cons e m₁' =>
        simp only [List.cons_append, List.cons.injEq] at hm
        obtain ⟨he, ht⟩ := hm
        subst he
        refine ⟨c :: b :: m₁', m₂, ?_, ?_⟩
        · rw [List.cons_append, List.cons_append]
          exact congrArg (fun l => c :: b :: l) ht
        · intro d hd
          have hbmem : b.score < (firstMaxCand b t).score :=
            hlt b (List.mem_cons_self _ _)
          rcases List.mem_cons.mp hd with hd | hd
          · subst hd
            exact Nat.lt_trans hbc hbmem
          · rcases List.mem_cons.mp hd with hd | hd
            · subst hd
              exact hbmem
            · exact hlt d (List.mem_cons_of_mem _ hd)
    · rw [if_neg hbc]
      obtain ⟨m₁, m₂, hm, hlt⟩ := ih c
      cases m₁ with
      | nil =>
        simp only [List.nil_append, List.cons.injEq] at hm
        obtain ⟨hfc, ht⟩ := hm
        refine ⟨[], b :: t, ?_, by simp⟩
        rw [List.nil_append, ← hfc]
      | cons e m₁' =>
        simp only [List.cons_append, List.cons.injEq] at hm
        obtain ⟨he, ht⟩ := hm
        subst he
        refine ⟨c :: b :: m₁', m₂, ?_, ?_⟩
        · rw [List.cons_append, List.cons_append]
          exact congrArg (fun l => c :: b :: l) ht
        · intro d hd
          have hcmem : c.score < (firstMaxCand c t).score :=
            hlt c (List.mem_cons_self _ _)
          rcases List.mem_cons.mp hd with hd | hd
          · subst hd
            exact hcmem
          · rcases List.mem_cons.mp hd with hd | hd
            · subst hd
              exact Nat.lt_of_le_of_lt (Nat.le_of_not_lt hbc) hcmem
            · exact hlt d (List.mem_cons_of_mem _ hd)

theorem firstMaxCand_mem (c : Cand) (cs : List Cand) :
    firstMaxCand c cs ∈ c :: cs := by
  obtain ⟨l₁, l₂, hm, _⟩ := firstMaxCand_decomp cs c
  rw [hm]
  exact List.mem_append_right _ (List.mem_cons_self _ _)

/-- Shared characterization of a successful run of the selector. -/
theorem sniff_ok_of_candidates (files : List CsvFile) (dir : String)
    (c0 : Cand) (rest : List Cand)
    (h : files.filterMap candidateOf = c0 :: rest) :
    sniff_posts_csv files dir =
      .ok ((firstMaxCand c0 rest).path, (firstMaxCand c0 rest).text_col,
           (firstMaxCand c0 rest).date_col, (firstMaxCand c0 rest).url_col) := by
  have hie : files.isEmpty = false := by
    cases files with
    | nil => simp at h
    | cons f fs => rfl
  unfold sniff_posts_csv
  rw [hie]
  simp only [Bool.false_eq_true, if_false, h]
  rw [sortCands_headD]

theorem candidateOf_path_not_blocked (f : CsvFile) (c : Cand)
    (h : candidateOf f = some c) :
    c.path = f.path ∧ is_blocked_csv f.path = false := by
  unfold candidateOf at h
  split at h
  · exact absurd h (by simp)
  · next hba =>
    refine ⟨?_, by revert hba; cases is_blocked_csv f.path <;> simp⟩
    split at h
    · exact absurd h (by simp)
    · split at h
      · exact absurd h (by simp)
      · split at h
        · exact absurd h (by simp)
        · dsimp only at h
          split at h
          · exact absurd h (by simp)
          · split at h
            · exact absurd h (by simp)
            · rw [Option.some_inj] at h
              subst h
              rfl

/-! ### C3: the selector returns the first candidate of maximal score -/

/-- C3: when the candidate list (files passing the filename filters, with
a resolved text column and at least one non-empty sampled row) is
non-empty, the selector returns the candidate `firstMaxCand c0 rest`; that
candidate has maximal score, it is preceded only by strictly
lower-scoring candidates (ties go to the first in enumeration order), and
a candidate whose score is strictly below the maximum — in particular one
with strictly fewer non-empty text rows, all else equal — is never the
selected one. -/
theorem c3_selector_first_max (files : List CsvFile) (dir : String)
    (c0 : Cand) (rest : List Cand)
    (h : files.filterMap candidateOf = c0 :: rest) :
    sniff_posts_csv files dir =
      .ok ((firstMaxCand c0 rest).path, (firstMaxCand c0 rest).text_col,
           (firstMaxCand c0 rest).date_col, (firstMaxCand c0 rest).url_col) ∧
    (∀ d ∈ files.filterMap candidateOf,
        d.score ≤ (firstMaxCand c0 rest).score) ∧
    (∃ l₁ l₂, files.filterMap candidateOf =
        l₁ ++ firstMaxCand c0 rest :: l₂ ∧
        ∀ d ∈ l₁, d.score < (firstMaxCand c0 rest).score) ∧
    (∀ d ∈ files.filterMap candidateOf,
        d.score < (firstMaxCand c0 rest).score → firstMaxCand c0 rest ≠ d) := by
  refine ⟨sniff_ok_of_candidates files dir c0 rest h, ?_, ?_, ?_⟩
  · rw [h]
    exact firstMaxCand_le rest c0
  · rw [h]
    exact firstMaxCand_decomp rest c0
  · intro d _ hlt heq
    rw [heq] at hlt
    exact Nat.lt_irrefl _ hlt

/-! ### C7: a blocked filename is never selected -/

/-- C7: whatever the export directory contains, the file returned by the
selector never has a name containing a blocked keyword. -/
theorem c7_blocked_never_selected (files : List CsvFile) (dir : String)
    (p t : String) (d u : Option String)
    (h : sniff_posts_csv files dir = .ok (p, t, d, u)) :
    is_blocked_csv p = false := by
  cases hc : files.filterMap candidateOf with
  | nil =>
    exfalso
    unfold sniff_posts_csv at h
    split at h
    · exact absurd h (by simp)
    · rw [hc] at h
      exact absurd h (by simp)
  | cons c0 rest =>
    rw [sniff_ok_of_candidates files dir c0 rest hc] at h
    simp only [Except.ok.injEq, Prod.mk.injEq] at h
    have hp : (firstMaxCand c0 rest).path = p := h.1
    have hmem : firstMaxCand c0 rest ∈ files.filterMap candidateOf := by
      rw [hc]
      exact firstMaxCand_mem c0 rest
    obtain ⟨f, _, hcf⟩ := List.mem_filterMap.mp hmem
    obtain ⟨hpath, hnb⟩ := candidateOf_path_not_blocked f _ hcf
    rw [← hp, hpath]
    exact hnb

theorem c3_witness :
    ([(⟨"Posts.csv", some ⟨some ["Content"], [[("Content", "a")]]⟩⟩ : CsvFile),
      ⟨"shares.csv", some ⟨some ["Content"],
        [[("Content", "a")], [("Content", "b")]]⟩⟩].filterMap candidateOf =
      ⟨1, "Posts.csv", "Content", none, none⟩ ::
        [⟨2, "shares.csv", "Content", none, none⟩]) ∧
    sniff_posts_csv
      [⟨"Posts.csv", some ⟨some ["Content"], [[("Content", "a")]]⟩⟩,
       ⟨"shares.csv", some ⟨some ["Content"],
         [[("Content", "a")], [("Content", "b")]]⟩⟩] "EXP" =
      .ok ("shares.csv", "Content", none, none) :=
  ⟨by decide,
   (c3_selector_first_max
     [⟨"Posts.csv", some ⟨some ["Content"], [[("Content", "a")]]⟩⟩,
      ⟨"shares.csv", some ⟨some ["Content"],
        [[("Content", "a")], [("Content", "b")]]⟩⟩] "EXP"
     ⟨1, "Posts.csv", "Content", none, none⟩
     [⟨2, "shares.csv", "Content", none, none⟩] (by decide)).1⟩

theorem c7_witness :
    sniff_posts_csv
      [(⟨"messages.csv", some ⟨some ["Content"], [[("Content", "x")]]⟩⟩ : CsvFile),
       ⟨"Posts.csv", some ⟨some ["Content"], [[("Content", "a")]]⟩⟩] "EXP" =
      .ok ("Posts.csv", "Content", none, none) ∧
    is_blocked_csv "Posts.csv" = false :=
  ⟨rfl,
   c7_blocked_never_selected
     [⟨"messages.csv", some ⟨some ["Content"], [[("Content", "x")]]⟩⟩,
      ⟨"Posts.csv", some ⟨some ["Content"], [[("Content", "a")]]⟩⟩] "EXP"
     "Posts.csv" "Content" none none rfl⟩

/-! ### C8: the selector fails exactly when no suitable source exists -/

/-- C8: with no CSV files at all the selector raises the "not found"
error; with CSV files but no surviving candidate it raises the diagnostic
error carrying the sorted, truncated file listing (see `noSuitableMsg`);
and whenever a candidate survives it returns a result (so failure happens
exactly when no suitable source exists, and on failure nothing is
returned). -/
theorem c8_failure_exactly_when_no_candidate (files : List CsvFile)
    (dir : String) :
    (files = [] →
      sniff_posts_csv files dir = .error ("No CSV files found under " ++ dir)) ∧
    (files ≠ [] → files.filterMap candidateOf = [] →
      sniff_posts_csv files dir = .error (noSuitableMsg dir files)) ∧
    (files.filterMap candidateOf ≠ [] →
      ∃ r, sniff_posts_csv files dir = .ok r) := by
  refine ⟨?_, ?_, ?_⟩
  · intro h
    subst h
    rfl
  · intro hne hc
    have hie : files.isEmpty = false := by
      cases files with
      | nil => exact absurd rfl hne
      | cons f fs => rfl
    unfold sniff_posts_csv
    rw [hie]
    simp only [Bool.false_eq_true, if_false, hc]
  · intro hc
    cases hcand : files.filterMap candidateOf with
    | nil => exact absurd hcand hc
    | cons c0 rest => exact ⟨_, sniff_ok_of_candidates files dir c0 rest hcand⟩

theorem c8_witness :
    (sniff_posts_csv [] "EXP" = .error ("No CSV files found under " ++ "EXP")) ∧
    (sniff_posts_csv
        [(⟨"b/Profile.csv", some ⟨some ["Name"], [[("Name", "x")]]⟩⟩ : CsvFile),
         ⟨"a/activity.csv", none⟩] "EXP" =
      .error (noSuitableMsg "EXP"
        [⟨"b/Profile.csv", some ⟨some ["Name"], [[("Name", "x")]]⟩⟩,
         ⟨"a/activity.csv", none⟩])) ∧
    (∃ r, sniff_posts_csv
        [(⟨"Posts.csv", some ⟨some ["ShareCommentary"],
            [[("ShareCommentary", "hi")]]⟩⟩ : CsvFile)] "EXP" = .ok r) :=
  ⟨(c8_failure_exactly_when_no_candidate [] "EXP").1 rfl,
   (c8_failure_exactly_when_no_candidate
     [⟨"b/Profile.csv", some ⟨some ["Name"], [[("Name", "x")]]⟩⟩,
      ⟨"a/activity.csv", none⟩] "EXP").2.1 (by decide) (by decide),
   (c8_failure_exactly_when_no_candidate
     [⟨"Posts.csv", some ⟨some ["ShareCommentary"],
        [[("ShareCommentary", "hi")]]⟩⟩] "EXP").2.2 (by decide)⟩

/-! ### C9: an unreadable or malformed candidate file is skipped -/

theorem candidateOf_none_of_data_none (f : CsvFile) (hf : f.data = none) :
    candidateOf f = none := by
  unfold candidateOf
  split
  · rfl
  · split
    · rfl
    · rw [hf]

/-- C9: a file whose opening or inspection raises (modelled by
`data = none`) contributes no candidate, so inserting it anywhere in the
enumeration neither changes a successful selection nor aborts the
selector. -/
theorem c9_unreadable_skipped (pre post : List CsvFile) (f : CsvFile)
    (dir : String) (r : SniffResult) (hf : f.data = none)
    (h : sniff_posts_csv (pre ++ post) dir = .ok r) :
    sniff_posts_csv (pre ++ f :: post) dir = .ok r := by
  have hcand : (pre ++ f :: post).filterMap candidateOf =
      (pre ++ post).filterMap candidateOf := by
    simp [List.filterMap_append, List.filterMap_cons,
      candidateOf_none_of_data_none f hf]
  cases hc : (pre ++ post).filterMap candidateOf with
  | nil =>
    exfalso
    unfold sniff_posts_csv at h
    split at h
    · exact absurd h (by simp)
    · rw [hc] at h
      exact absurd h (by simp)
  | cons c0 rest =>
    rw [sniff_ok_of_candidates (pre ++ post) dir c0 rest hc] at h
    rw [sniff_ok_of_candidates (pre ++ f :: post) dir c0 rest
      (by rw [hcand, hc])]
    exact h

theorem c9_witness :
    ((⟨"shares.csv", none⟩ : CsvFile).data = none ∧
      sniff_posts_csv
        ([(⟨"Posts.csv", some ⟨some ["Content"], [[("Content", "a")]]⟩⟩ :
            CsvFile)] ++ []) "EXP" = .ok ("Posts.csv", "Content", none, none)) ∧
    sniff_posts_csv
      ([(⟨"Posts.csv", some ⟨some ["Content"], [[("Content", "a")]]⟩⟩ :
          CsvFile)] ++ (⟨"shares.csv", none⟩ : CsvFile) :: []) "EXP" =
      .ok ("Posts.csv", "Content", none, none) :=
  ⟨⟨rfl, rfl⟩,
   c9_unreadable_skipped
     [⟨"Posts.csv", some ⟨some ["Content"], [[("Content", "a")]]⟩⟩] []
     ⟨"shares.csv", none⟩ "EXP" ("Posts.csv", "Content", none, none)
     rfl rfl⟩

/-! ### Slug well-formedness lemmas -/

theorem noHH_tail (c : Char) (t : List Char) (h : noHH (c :: t) = true) :
    noHH t = true := by
  cases t with
  | nil => rfl
  | cons x t' =>
    simp only [noHH, Bool.and_eq_true] at h
    exact h.2

theorem noHH_cons (c : Char) (X : List Char) (hX : noHH X = true)
    (h : c = '-' → headNotH X = true) : noHH (c :: X) = true := by
  cases X with
  | nil => rfl
  | cons x t =>
    simp only [noHH, Bool.and_eq_true]
    refine ⟨?_, hX⟩
    by_cases hc : c = '-'
    · have hx := h hc
      simp only [headNotH, Bool.not_eq_true'] at hx
      simp [hc, hx]
    · simp [hc]

theorem squashAux_noHH (l : List Char) :
    ∀ b, noHH (squashAux b l) = true ∧ headNotH (squashAux true l) = true := by
  induction l with
  | nil => intro _; exact ⟨rfl, rfl⟩
  | cons c t ih =>
    intro b
    constructor
    · by_cases hc : c = '-'
      · cases b with
        | true =>
          have hsq : squashAux true (c :: t) = squashAux true t := by
            simp [squashAux, hc]
          rw [hsq]
          exact (ih true).1
        | false =>
          have hsq : squashAux false (c :: t) = '-' :: squashAux true t := by
            simp [squashAux, hc]
          rw [hsq]
          exact noHH_cons '-' _ (ih true).1 (fun _ => (ih true).2)
      · have hsq : squashAux b (c :: t) = c :: squashAux false t := by
          simp [squashAux, hc]
        rw [hsq]
        exact noHH_cons c _ (ih false).1 (fun hcc => absurd hcc hc)
    · by_cases hc : c = '-'
      · have hsq : squashAux true (c :: t) = squashAux true t := by
          simp [squashAux, hc]
        rw [hsq]
        exact (ih true).2
      · have hsq : squashAux true (c :: t) = c :: squashAux false t := by
          simp [squashAux, hc]
        rw [hsq]
        simp [headNotH, hc]

theorem noHH_dropWhile (p : Char → Bool) (l : List Char) (h : noHH l = true) :
    noHH (l.dropWhile p) = true := by
  induction l with
  | nil => exact h
  | cons c t ih =>
    rw [List.dropWhile_cons]
    split
    · exact ih (noHH_tail c t h)
    · exact h

theorem dropTrailWhile_prefix (p : Char → Bool) (l : List Char) :
    ∃ s, l = dropTrailWhile p l ++ s := by
  induction l with
  | nil => exact ⟨[], rfl⟩
  | cons c t ih =>
    obtain ⟨s, hs⟩ := ih
    simp only [dropTrailWhile]
    cases hr : dropTrailWhile p t with
    | nil =>
      by_cases hpc : p c = true
      · rw [if_pos hpc]
        exact ⟨c :: t, rfl⟩
      · rw [if_neg hpc]
        exact ⟨t, rfl⟩
    | cons d rs =>
      rw [hr] at hs
      exact ⟨s, by rw [List.cons_append, ← hs]⟩

theorem noHH_dropTrail (p : Char → Bool) (l : List Char) (h : noHH l = true) :
    noHH (dropTrailWhile p l) = true := by
  induction l with
  | nil => exact h
  | cons c t ih =>
    simp only [dropTrailWhile]
    cases hr : dropTrailWhile p t with
    | nil =>
      by_cases hpc : p c = true
      · rw [if_pos hpc]
        rfl
      · rw [if_neg hpc]
        rfl
    | cons d rs =>
      have htail : noHH (d :: rs) = true := by
        rw [← hr]
        exact ih (noHH_tail c t h)
      obtain ⟨s, hs⟩ := dropTrailWhile_prefix p t
      rw [hr] at hs
      apply noHH_cons c (d :: rs) htail
      intro hc
      rw [hs] at h
      simp only [List.cons_append, noHH, Bool.and_eq_true] at h
      obtain ⟨h1, -⟩ := h
      simp only [headNotH, Bool.not_eq_true']
      by_cases hd : d = '-'
      · rw [hc, hd] at h1
        simp at h1
      · simp [hd]

theorem headNotH_dropWhileH (l : List Char) :
    headNotH (l.dropWhile (fun c => c = '-')) = true := by
  induction l with
  | nil => rfl
  | cons c t ih =>
    rw [List.dropWhile_cons]
    split
    · exact ih
    · next hcc =>
      simp only [headNotH, Bool.not_eq_true']
      simpa using hcc

theorem headNotH_dropTrail (p : Char → Bool) (l : List Char)
    (h : headNotH l = true) : headNotH (dropTrailWhile p l) = true := by
  cases l with
  | nil => rfl
  | cons c t =>
    simp only [dropTrailWhile]
    cases hr : dropTrailWhile p t with
    | nil =>
      by_cases hpc : p c = true
      · rw [if_pos hpc]
        rfl
      · rw [if_neg hpc]
        simpa only [headNotH] using h
    | cons d rs => simpa only [headNotH] using h

theorem lastNotH_dropTrail (l : List Char) :
    headNotH (dropTrailWhile (fun c => c = '-') l).reverse = true := by
  induction l with
  | nil => rfl
  | cons c t ih =>
    simp only [dropTrailWhile]
    cases hr : dropTrailWhile (fun c => c = '-') t with
    | nil =>
      by_cases hpc : decide (c = '-') = true
      · rw [if_pos hpc]
        rfl
      · rw [if_neg hpc]
        simp only [List.reverse_cons, List.reverse_nil, List.nil_append,
          headNotH, Bool.not_eq_true']
        simpa using hpc
    | cons d rs =>
      rw [hr] at ih
      rw [List.reverse_cons]
      cases hXc : (d :: rs).reverse with
      | nil => exact absurd hXc (by simp)
      | cons x xs =>
        rw [hXc] at ih
        rw [List.cons_append]
        simpa only [headNotH] using ih

theorem dropTrailWhile_length (p : Char → Bool) (l : List Char) :
    (dropTrailWhile p l).length ≤ l.length := by
  induction l with
  | nil => exact Nat.le_refl _
  | cons c t ih =>
    simp only [dropTrailWhile]
    cases hr : dropTrailWhile p t with
    | nil =>
      by_cases hpc : p c = true
      · rw [if_pos hpc]
        simp
      · rw [if_neg hpc]
        simp only [List.length_cons, List.length_singleton]
        exact Nat.succ_le_succ (Nat.zero_le _)
    | cons d rs =>
      rw [hr] at ih
      simp only [List.length_cons]
      exact Nat.succ_le_succ ih

theorem collapseAux_length (l : List Char) :
    ∀ b, (collapseAux b l).length ≤ l.length := by
  induction l with
  | nil => intro _; exact Nat.le_refl _
  | cons c t ih =>
    intro b
    simp only [collapseAux]
    split
    · simp only [List.length_cons]
      exact Nat.succ_le_succ (ih false)
    · split
      · exact Nat.le_trans (ih true) (Nat.le_succ _)
      · simp only [List.length_cons]
        exact Nat.succ_le_succ (ih true)

theorem squashAux_length (l : List Char) :
    ∀ b, (squashAux b l).length ≤ l.length := by
  induction l with
  | nil => intro _; exact Nat.le_refl _
  | cons c t ih =>
    intro b
    simp only [squashAux]
    split
    · split
      · exact Nat.le_trans (ih true) (Nat.le_succ _)
      · simp only [List.length_cons]
        exact Nat.succ_le_succ (ih true)
    · simp only [List.length_cons]
      exact Nat.succ_le_succ (ih false)

theorem mem_collapseAux (l : List Char) :
    ∀ b c, c ∈ collapseAux b l → (isSlugAl c || decide (c = '-')) = true := by
  induction l with
  | nil => intro b c hc; simp [collapseAux] at hc
  | cons d t ih =>
    intro b c hc
    simp only [collapseAux] at hc
    split at hc
    · next hal =>
      rcases List.mem_cons.mp hc with hc | hc
      · subst hc
        simp [hal]
      · exact ih false c hc
    · split at hc
      · exact ih true c hc
      · rcases List.mem_cons.mp hc with hc | hc
        · subst hc
          simp
        · exact ih true c hc

theorem mem_squashAux (l : List Char) :
    ∀ b c, c ∈ squashAux b l → c ∈ l := by
  induction l with
  | nil => intro b c hc; simp [squashAux] at hc
  | cons d t ih =>
    intro b c hc
    simp only [squashAux] at hc
    split at hc
    · next hd =>
      split at hc
      · exact List.mem_cons_of_mem _ (ih true c hc)
      · rcases List.mem_cons.mp hc with hc | hc
        · subst hc
          rw [hd]
          exact List.mem_cons_self _ _
        · exact List.mem_cons_of_mem _ (ih true c hc)
    · rcases List.mem_cons.mp hc with hc | hc
      · subst hc
        exact List.mem_cons_self _ _
      · exact List.mem_cons_of_mem _ (ih false c hc)

theorem mem_dropTrailWhile (p : Char → Bool) (l : List Char) (c : Char)
    (h : c ∈ dropTrailWhile p l) : c ∈ l := by
  obtain ⟨s, hs⟩ := dropTrailWhile_prefix p l
  rw [hs]
  exact List.mem_append_left _ h

/-- `slugify` output is well-formed whenever its input has at most 80
characters (as the per-row preview always does). -/
theorem slugify_ok_of_short (s : String) (hs : s.data.length ≤ 80) :
    slugOK (slugify s) = true := by
  simp only [slugify]
  split
  · decide
  · next hne =>
    have hlen1 : ((stripChars s.data).map lowerChar).length ≤ 80 := by
      rw [List.length_map]
      exact Nat.le_trans
        (Nat.le_trans (dropTrailWhile_length _ _)
          ((List.dropWhile_sublist _).length_le)) hs
    have hstrip : ∀ X : List Char, (stripHyphChars X).length ≤ X.length := by
      intro X
      exact Nat.le_trans (dropTrailWhile_length _ _)
        ((List.dropWhile_sublist _).length_le)
    have hlen2 :
        (stripHyphChars (squashAux false
          (collapseAux false ((stripChars s.data).map lowerChar)))).length
          ≤ 80 :=
      Nat.le_trans (hstrip _) (Nat.le_trans (squashAux_length _ _)
        (Nat.le_trans (collapseAux_length _ _) hlen1))
    rw [List.take_of_length_le hlen2]
    have hmem : ∀ c ∈ stripHyphChars (squashAux false
        (collapseAux false ((stripChars s.data).map lowerChar))),
        (isSlugAl c || decide (c = '-')) = true := by
      intro c hc
      have hc2 := List.dropWhile_subset _ (mem_dropTrailWhile _ _ _ hc)
      exact mem_collapseAux _ _ _ (mem_squashAux _ _ _ hc2)
    have hnoHH : noHH (stripHyphChars (squashAux false
        (collapseAux false ((stripChars s.data).map lowerChar)))) = true := by
      unfold stripHyphChars
      exact noHH_dropTrail _ _ (noHH_dropWhile _ _ ((squashAux_noHH _ false).1))
    have hhead : headNotH (stripHyphChars (squashAux false
        (collapseAux false ((stripChars s.data).map lowerChar)))) = true := by
      unfold stripHyphChars
      exact headNotH_dropTrail _ _ (headNotH_dropWhileH _)
    have hlast : headNotH (stripHyphChars (squashAux false
        (collapseAux false ((stripChars s.data).map lowerChar)))).reverse
        = true := by
      unfold stripHyphChars
      exact lastNotH_dropTrail _
    unfold slugOK
    simp only [Bool.and_eq_true, Bool.not_eq_true', List.all_eq_true,
      decide_eq_true_eq]
    refine ⟨⟨⟨⟨⟨?_, ?_⟩, ?_⟩, ?_⟩, ?_⟩, ?_⟩
    · simpa [List.isEmpty_iff] using hne
    · exact hlen2
    · intro c hc
      exact hmem c hc
    · exact hhead
    · exact hlast
    · exact hnoHH

/-! ### Digest and date-shape lemmas -/

theorem digitChar_isDigit (n : Nat) : (digitChar n).isDigit = true := by
  unfold digitChar
  have h : n % 10 < 10 := Nat.mod_lt _ (by norm_num)
  interval_cases hn : n % 10 <;> decide

theorem hexChar_mod_hex (n : Nat) :
    ((hexChar (n % 16)).isDigit ||
      ('a' ≤ hexChar (n % 16) && hexChar (n % 16) ≤ 'f')) = true := by
  have h : n % 16 < 16 := Nat.mod_lt _ (by norm_num)
  interval_cases hn : n % 16 <;> decide

theorem sha1bytes_length (msg : List Nat) : (sha1bytes msg).length = 20 := by
  simp [sha1bytes, be4]

theorem sha1_data_length (text : String) : (sha1 text).data.length = 40 := by
  unfold sha1
  have hflat : ∀ bs : List Nat, ((bs.map byteHex).flatten).length = 2 * bs.length := by
    intro bs
    induction bs with
    | nil => rfl
    | cons b t ih =>
      simp only [List.map_cons, List.flatten_cons, List.length_append, ih,
        byteHex, List.length_cons, List.length_nil]
      omega
  rw [hflat, sha1bytes_length]

theorem sha1_data_hex (text : String) :
    ∀ c ∈ (sha1 text).data, (c.isDigit || ('a' ≤ c && c ≤ 'f')) = true := by
  intro c hc
  unfold sha1 at hc
  rw [List.mem_flatten] at hc
  obtain ⟨l, hl, hcl⟩ := hc
  rw [List.mem_map] at hl
  obtain ⟨b, -, hb⟩ := hl
  rw [← hb] at hcl
  unfold byteHex at hcl
  rcases List.mem_cons.mp hcl with hcl | hcl
  · subst hcl
    exact hexChar_mod_hex (b / 16)
  · rcases List.mem_cons.mp hcl with hcl | hcl
    · subst hcl
      exact hexChar_mod_hex b
    · simp at hcl

theorem rowDigest_ok (tc : String) (row : Row) :
    digestOK (rowDigest tc row) = true := by
  unfold digestOK rowDigest strTake
  simp only [Bool.and_eq_true, List.all_eq_true]
  constructor
  · simp only [List.length_take, sha1_data_length]
    decide
  · intro c hc
    exact sha1_data_hex _ c (List.take_subset _ _ hc)

theorem fmtY_eq_pad4 (y : Nat) (hy : 1000 ≤ y) : fmtY y = pad4 y := by
  unfold fmtY
  rw [if_neg (by omega), if_neg (by omega), if_neg (by omega)]

/-- The rendered date has the `YYYY-MM-DD` shape when the year has four
digits (for years below 1000 `%Y` renders fewer than four characters). -/
theorem fmtYmd_shape (y m d : Nat) (hy : 1000 ≤ y) :
    isDateShape (fmtYmd y m d) = true := by
  unfold fmtYmd
  rw [fmtY_eq_pad4 y hy]
  simp [isDateShape, pad4, pad2, digitChar_isDigit]

theorem leadingDatePat_take_shape (s : String)
    (hl : leadingDatePat s.data = true) : isDateShape (strTake s 10) = true := by
  unfold leadingDatePat at hl
  split at hl
  · next a b c d e f g h2 i j rest heq =>
    unfold strTake isDateShape
    rw [heq]
    simpa using hl
  · exact absurd hl (by simp)

theorem parse_date_shape (today : String) (s0 : Option String)
    (h : isDateShape today = true)
    (hy : ∀ y m d, tryFormats (pyStrip (s0.getD "")).data = some (y, m, d) →
      1000 ≤ y) :
    isDateShape (parse_date today s0) = true := by
  unfold parse_date
  cases htf : tryFormats (pyStrip (s0.getD "")).data with
  | some ymd =>
    simp only [htf]
    exact fmtYmd_shape ymd.1 ymd.2.1 ymd.2.2 (hy ymd.1 ymd.2.1 ymd.2.2 (by rw [htf]))
  | none =>
    simp only [htf]
    split
    · next hl => exact leadingDatePat_take_shape _ hl
    · exact h

/-! ### C10: produced filenames (corrected) -/

/-- C10 counterexample: the claim fails as stated.  CPython's `strftime`
on glibc does not zero-pad `%Y`, so the strptime-accepted input
"0500-01-02" yields the 9-character date "500-01-02": `parse_date` does
not always return a 10-character `YYYY-MM-DD`-shaped string. -/
theorem c10_counterexample :
    parse_date "2026-10-12" (some "0500-01-02") = "500-01-02" ∧
    (parse_date "2026-10-12" (some "0500-01-02")).data.length = 9 ∧
    isDateShape (parse_date "2026-10-12" (some "0500-01-02")) = false ∧
    rowDateStr "2026-10-12" (some "Date")
      [("Text", "hello"), ("Date", "0500-01-02")] = "500-01-02" :=
  ⟨by decide, by decide, by decide, by decide⟩

/-- C10 (amended): for a processed row (non-empty trimmed text, run date
of the usual shape) the filename is `date ++ "-" ++ slug ++ "-" ++ digest
++ ".md"`; the date has the 10-character `YYYY-MM-DD` shape provided any
format-accepted date value has a year of at least 1000 (`%Y` renders
smaller years with fewer digits); the slug is a non-empty string of at
most 80 lowercase alphanumerics with only single interior hyphens — the
theorem is scoped to ASCII text, where the model's `str.lower()` is exact
(Unicode lowercasing can lengthen a string, e.g. İ) — and the digest is
exactly ten lowercase hex characters. -/
theorem c10_filename_wellformed (today tc : String) (dc : Option String)
    (row : Row) (_htext : rowText tc row ≠ "")
    (htoday : isDateShape today = true)
    (_hascii : (rowText tc row).data.all (fun c => c.toNat < 128) = true)
    (hyear : ∀ y m d,
      tryFormats (pyStrip ((rowDateRaw dc row).getD "")).data =
        some (y, m, d) → 1000 ≤ y) :
    rowFname today tc dc row =
      rowDateStr today dc row ++ "-" ++ rowSlug tc row ++ "-" ++
        rowDigest tc row ++ ".md" ∧
    isDateShape (rowDateStr today dc row) = true ∧
    slugOK (rowSlug tc row) = true ∧
    digestOK (rowDigest tc row) = true := by
  refine ⟨rfl, parse_date_shape today _ htoday hyear, ?_, rowDigest_ok tc row⟩
  apply slugify_ok_of_short
  unfold strTake
  simp only [List.length_take]
  exact Nat.min_le_left _ _

theorem c10_witness :
    (rowText "Text" [("Text", "Hello, World!"), ("Date", "2024-01-05")] ≠ "" ∧
      isDateShape "2026-10-12" = true ∧
      (rowText "Text" [("Text", "Hello, World!"), ("Date", "2024-01-05")]).data.all
        (fun c => c.toNat < 128) = true ∧
      (∀ y m d,
        tryFormats (pyStrip ((rowDateRaw (some "Date")
            [("Text", "Hello, World!"), ("Date", "2024-01-05")]).getD "")).data =
          some (y, m, d) → 1000 ≤ y)) ∧
    (rowFname "2026-10-12" "Text" (some "Date")
        [("Text", "Hello, World!"), ("Date", "2024-01-05")] =
      rowDateStr "2026-10-12" (some "Date")
          [("Text", "Hello, World!"), ("Date", "2024-01-05")] ++ "-" ++
        rowSlug "Text" [("Text", "Hello, World!"), ("Date", "2024-01-05")] ++
        "-" ++
        rowDigest "Text" [("Text", "Hello, World!"), ("Date", "2024-01-05")] ++
        ".md" ∧
      isDateShape (rowDateStr "2026-10-12" (some "Date")
        [("Text", "Hello, World!"), ("Date", "2024-01-05")]) = true ∧
      slugOK (rowSlug "Text"
        [("Text", "Hello, World!"), ("Date", "2024-01-05")]) = true ∧
      digestOK (rowDigest "Text"
        [("Text", "Hello, World!"), ("Date", "2024-01-05")]) = true) :=
  ⟨⟨by decide, by decide, by decide,
    by
      intro y m d h
      rw [(by decide : tryFormats (pyStrip ((rowDateRaw (some "Date")
          [("Text", "Hello, World!"), ("Date", "2024-01-05")]).getD "")).data =
        some (2024, 1, 5))] at h
      simp only [Option.some_inj, Prod.mk.injEq] at h
      omega⟩,
   c10_filename_wellformed "2026-10-12" "Text" (some "Date")
     [("Text", "Hello, World!"), ("Date", "2024-01-05")] (by decide) (by decide)
     (by decide)
     (by
       intro y m d h
       rw [(by decide : tryFormats (pyStrip ((rowDateRaw (some "Date")
           [("Text", "Hello, World!"), ("Date", "2024-01-05")]).getD "")).data =
         some (2024, 1, 5))] at h
       simp only [Option.some_inj, Prod.mk.injEq] at h
       omega)⟩

/-! ### Materializer lemmas -/

theorem fsRead_fsWrite_same (fs : FS) (k v : String) :
    fsRead (fsWrite fs k v) k = some v := by
  induction fs with
  | nil => simp [fsWrite, fsRead]
  | cons kv t ih =>
    obtain ⟨k0, v0⟩ := kv
    simp only [fsWrite]
    split
    · simp [fsRead]
    · next hne =>
      simp only [fsRead]
      rw [if_neg hne]
      exact ih

theorem fsRead_fsWrite_other (fs : FS) (k v k' : String) (h : k' ≠ k) :
    fsRead (fsWrite fs k v) k' = fsRead fs k' := by
  have hkk : ¬(k = k') := fun hh => h hh.symm
  induction fs with
  | nil =>
    simp only [fsWrite, fsRead]
    rw [if_neg hkk]
  | cons kv t ih =>
    obtain ⟨k0, v0⟩ := kv
    simp only [fsWrite]
    split
    · next hk0 =>
      subst hk0
      simp only [fsRead]
      rw [if_neg hkk, if_neg hkk]
    · next hk0 =>
      simp only [fsRead]
      by_cases hk0' : k0 = k'
      · rw [if_pos hk0', if_pos hk0']
      · rw [if_neg hk0', if_neg hk0']
        exact ih

/-- After a step on a row with non-empty, newline-clean content, the
row's file reads back (after universal-newline translation) as the row's
content. -/
theorem step_write (today tc : String) (dc uc : Option String) (st : MState)
    (row : Row) (h : rowText tc row ≠ "")
    (hnl : univNL (rowContent today tc dc uc row) =
      rowContent today tc dc uc row) :
    ∃ v, fsRead (step today tc dc uc st row).fs (rowFname today tc dc row) =
      some v ∧ univNL v = rowContent today tc dc uc row := by
  unfold step
  rw [if_neg h]
  dsimp only
  split
  · next stored heq =>
    split
    · next hcond => exact ⟨stored, heq, hcond⟩
    · exact ⟨_, fsRead_fsWrite_same _ _ _, hnl⟩
  · exact ⟨_, fsRead_fsWrite_same _ _ _, hnl⟩

/-- A step preserves an established file, provided any row writing to the
same filename writes the same (newline-clean) content. -/
theorem step_preserves (today tc : String) (dc uc : Option String)
    (st : MState) (row : Row) (k w : String)
    (hk : ∃ v, fsRead st.fs k = some v ∧ univNL v = w)
    (hcomp : rowText tc row ≠ "" → rowFname today tc dc row = k →
      rowContent today tc dc uc row = w)
    (hnlrow : rowText tc row ≠ "" →
      univNL (rowContent today tc dc uc row) =
        rowContent today tc dc uc row) :
    ∃ v, fsRead (step today tc dc uc st row).fs k = some v ∧ univNL v = w := by
  obtain ⟨v, hv, hvw⟩ := hk
  unfold step
  by_cases ht : rowText tc row = ""
  · rw [if_pos ht]
    exact ⟨v, hv, hvw⟩
  · rw [if_neg ht]
    dsimp only
    by_cases hf : rowFname today tc dc row = k
    · have hcv := hcomp ht hf
      have hnl := hnlrow ht
      split
      · next stored heq =>
        split
        · exact ⟨v, hv, hvw⟩
        · refine ⟨rowContent today tc dc uc row, ?_, hnl.trans hcv⟩
          rw [← hf]
          exact fsRead_fsWrite_same _ _ _
      · refine ⟨rowContent today tc dc uc row, ?_, hnl.trans hcv⟩
        rw [← hf]
        exact fsRead_fsWrite_same _ _ _
    · split
      · next stored heq =>
        split
        · exact ⟨v, hv, hvw⟩
        · refine ⟨v, ?_, hvw⟩
          rw [fsRead_fsWrite_other _ _ _ _ (fun hh => hf hh.symm)]
          exact hv
      · refine ⟨v, ?_, hvw⟩
        rw [fsRead_fsWrite_other _ _ _ _ (fun hh => hf hh.symm)]
        exact hv

theorem foldl_preserves (today tc : String) (dc uc : Option String)
    (rows : List Row) :
    ∀ (st : MState) (k w : String),
      (∃ v, fsRead st.fs k = some v ∧ univNL v = w) →
      (∀ r ∈ rows, rowText tc r ≠ "" → rowFname today tc dc r = k →
        rowContent today tc dc uc r = w) →
      (∀ r ∈ rows, rowText tc r ≠ "" →
        univNL (rowContent today tc dc uc r) = rowContent today tc dc uc r) →
      ∃ v, fsRead ((rows.foldl (step today tc dc uc) st).fs) k = some v ∧
        univNL v = w := by
  induction rows with
  | nil => intro st k w hk _ _; exact hk
  | cons r0 rs ih =>
    intro st k w hk hcomp hnl
    simp only [List.foldl_cons]
    exact ih (step today tc dc uc st r0) k w
      (step_preserves today tc dc uc st r0 k w hk
        (hcomp r0 (List.mem_cons_self _ _)) (hnl r0 (List.mem_cons_self _ _)))
      (fun r hr => hcomp r (List.mem_cons_of_mem _ hr))
      (fun r hr => hnl r (List.mem_cons_of_mem _ hr))

/-- After a full run, every non-empty row's file reads back as that row's
content, provided rows writing to the same filename write the same
content and no row's content contains a carriage return. -/
theorem run_establishes (today tc : String) (dc uc : Option String)
    (rows : List Row)
    (hcompat : ∀ r1 ∈ rows, ∀ r2 ∈ rows,
      rowText tc r1 ≠ "" → rowText tc r2 ≠ "" →
      rowFname today tc dc r1 = rowFname today tc dc r2 →
      rowContent today tc dc uc r1 = rowContent today tc dc uc r2)
    (hnl : ∀ r ∈ rows, rowText tc r ≠ "" →
      univNL (rowContent today tc dc uc r) = rowContent today tc dc uc r) :
    ∀ st : MState, ∀ r ∈ rows, rowText tc r ≠ "" →
      ∃ v, fsRead ((rows.foldl (step today tc dc uc) st).fs)
        (rowFname today tc dc r) = some v ∧
        univNL v = rowContent today tc dc uc r := by
  induction rows with
  | nil => intro st r hr; exact absurd hr (by simp)
  | cons r0 rs ih =>
    intro st r hr hne
    simp only [List.foldl_cons]
    rcases List.mem_cons.mp hr with hr | hr
    · subst hr
      exact foldl_preserves today tc dc uc rs _ _ _
        (step_write today tc dc uc st r hne
          (hnl r (List.mem_cons_self _ _) hne))
        (fun r' hr' hne' hf' =>
          hcompat r' (List.mem_cons_of_mem _ hr') r
            (List.mem_cons_self _ _) hne' hne hf')
        (fun r' hr' hne' => hnl r' (List.mem_cons_of_mem _ hr') hne')
    · exact ih
        (fun r1 h1 r2 h2 => hcompat r1 (List.mem_cons_of_mem _ h1)
          r2 (List.mem_cons_of_mem _ h2))
        (fun r' hr' => hnl r' (List.mem_cons_of_mem _ hr'))
        (step today tc dc uc st r0) r hr hne

/-- A run over a state in which every row's file already reads back as the
row's content changes nothing: no writes, no counter increments. -/
theorem run_noop (today tc : String) (dc uc : Option String)
    (rows : List Row) :
    ∀ st : MState,
      (∀ r ∈ rows, rowText tc r ≠ "" →
        ∃ v, fsRead st.fs (rowFname today tc dc r) = some v ∧
          univNL v = rowContent today tc dc uc r) →
      rows.foldl (step today tc dc uc) st = st := by
  induction rows with
  | nil => intro st _; rfl
  | cons r0 rs ih =>
    intro st hst
    simp only [List.foldl_cons]
    have hstep : step today tc dc uc st r0 = st := by
      unfold step
      by_cases ht : rowText tc r0 = ""
      · rw [if_pos ht]
      · rw [if_neg ht]
        dsimp only
        obtain ⟨v, hv, hvw⟩ := hst r0 (List.mem_cons_self _ _) ht
        rw [hv]
        dsimp only
        rw [if_pos hvw]
    rw [hstep]
    exact ih st (fun r hr => hst r (List.mem_cons_of_mem _ hr))

/-! ### C2: re-running on an unchanged source (corrected) -/

set_option maxRecDepth 200000 in
/-- C2 counterexample: the claim fails as stated, in two independent ways.
First, two rows with the same text (hence the same filename) but
different URLs make every re-run rewrite the file twice: the second run
reports 2 updated files, not 0.  Second, even a single row with distinct
filename is rewritten on every re-run when its text contains a carriage
return, because `read_text`'s universal-newline translation makes the
read-back differ from the written content: the second run reports 1
updated file, not 0. -/
theorem c2_counterexample :
    (runMaterializer "2026-10-12" "Text" none (some "Url")
      [[("Text", "hi"), ("Url", "https://a")],
       [("Text", "hi"), ("Url", "https://b")]]
      ((runMaterializer "2026-10-12" "Text" none (some "Url")
        [[("Text", "hi"), ("Url", "https://a")],
         [("Text", "hi"), ("Url", "https://b")]] []).fs)).updated = 2 ∧
    (runMaterializer "2026-10-12" "Text" none none [[("Text", "a\r\nb")]]
      ((runMaterializer "2026-10-12" "Text" none none
        [[("Text", "a\r\nb")]] []).fs)).updated = 1 := by
  exact ⟨by decide, by decide⟩

/-- C2 (amended): whenever no two processed rows map to the same filename
with different contents (in particular whenever all filenames are
distinct), and no processed row's content contains a carriage return (so
the universal-newline translation applied by `read_text` gives back the
written content unchanged), a second run of the materializer over the
unchanged source and the output directory left by the first run creates
zero files and updates zero files. -/
theorem c2_idempotent_of_compatible (today tc : String) (dc uc : Option String)
    (rows : List Row) (fs0 : FS)
    (hcompat : ∀ r1 ∈ rows, ∀ r2 ∈ rows,
      rowText tc r1 ≠ "" → rowText tc r2 ≠ "" →
      rowFname today tc dc r1 = rowFname today tc dc r2 →
      rowContent today tc dc uc r1 = rowContent today tc dc uc r2)
    (hnl : ∀ r ∈ rows, rowText tc r ≠ "" →
      univNL (rowContent today tc dc uc r) = rowContent today tc dc uc r) :
    runMaterializer today tc dc uc rows
        (runMaterializer today tc dc uc rows fs0).fs =
      ⟨(runMaterializer today tc dc uc rows fs0).fs, 0, 0⟩ := by
  unfold runMaterializer
  apply run_noop
  intro r hr hne
  exact run_establishes today tc dc uc rows hcompat hnl ⟨fs0, 0, 0⟩ r hr hne

theorem c2_witness :
    ((∀ r1 ∈ [[("Text", "hola"), ("Url", "https://a")]], ∀ r2 ∈
        [[("Text", "hola"), ("Url", "https://a")]],
      rowText "Text" r1 ≠ "" → rowText "Text" r2 ≠ "" →
      rowFname "2026-10-12" "Text" none r1 =
        rowFname "2026-10-12" "Text" none r2 →
      rowContent "2026-10-12" "Text" none (some "Url") r1 =
        rowContent "2026-10-12" "Text" none (some "Url") r2) ∧
     (∀ r ∈ [[("Text", "hola"), ("Url", "https://a")]],
      rowText "Text" r ≠ "" →
      univNL (rowContent "2026-10-12" "Text" none (some "Url") r) =
        rowContent "2026-10-12" "Text" none (some "Url") r)) ∧
    runMaterializer "2026-10-12" "Text" none (some "Url")
        [[("Text", "hola"), ("Url", "https://a")]]
        ((runMaterializer "2026-10-12" "Text" none (some "Url")
          [[("Text", "hola"), ("Url", "https://a")]] []).fs) =
      ⟨(runMaterializer "2026-10-12" "Text" none (some "Url")
          [[("Text", "hola"), ("Url", "https://a")]] []).fs, 0, 0⟩ :=
  ⟨⟨by
      intro r1 h1 r2 h2 _ _ _
      simp only [List.mem_singleton] at h1 h2
      rw [h1, h2],
    by
      intro r h1 _
      simp only [List.mem_singleton] at h1
      rw [h1]
      decide⟩,
   c2_idempotent_of_compatible "2026-10-12" "Text" none (some "Url")
     [[("Text", "hola"), ("Url", "https://a")]] []
     (by
       intro r1 h1 r2 h2 _ _ _
       simp only [List.mem_singleton] at h1 h2
       rw [h1, h2])
     (by
       intro r h1 _
       simp only [List.mem_singleton] at h1
       rw [h1]
       decide)⟩

/-! ### C1: changing only the URL (corrected) -/

/-- Two contents built from the same date and text but different URLs are
different strings (the URL is embedded in the front matter). -/
theorem mkContent_url_ne (date t u1 u2 : String) (hne : u1 ≠ u2) :
    mkContent date u1 t ≠ mkContent date u2 t := by
  intro h
  apply hne
  have hd := congrArg String.data h
  by_cases h1 : u1 = "" <;> by_cases h2 : u2 = ""
  · exact h1.trans h2.symm
  · exfalso
    rw [h1] at hd
    simp only [mkContent, contentLines, joinSep, h2, if_pos, if_neg,
      List.nil_append, List.cons_append, String.data_append,
      List.append_assoc] at hd
    simp at hd
  · exfalso
    rw [h2] at hd
    simp only [mkContent, contentLines, joinSep, h1, if_pos, if_neg,
      List.nil_append, List.cons_append, String.data_append,
      List.append_assoc] at hd
    simp at hd
  · apply String.ext
    simp only [mkContent, contentLines, joinSep, h1, h2, if_neg,
      List.nil_append, List.cons_append, String.data_append,
      List.append_assoc] at hd
    simp at hd
    exact hd

set_option maxRecDepth 200000 in
/-- C1 counterexample: the claim fails as stated.  Re-importing a row whose
URL (only) changed leaves the filename unchanged, but the file is
overwritten and the updated counter becomes 1, not 0. -/
theorem c1_counterexample :
    ((step "2026-10-12" "Text" none (some "Url")
        (step "2026-10-12" "Text" none (some "Url") ⟨[], 0, 0⟩
          [("Text", "hi"), ("Url", "https://a")])
        [("Text", "hi"), ("Url", "https://b")]).updated = 1) ∧
    rowFname "2026-10-12" "Text" none [("Text", "hi"), ("Url", "https://a")] =
      rowFname "2026-10-12" "Text" none [("Text", "hi"), ("Url", "https://b")] :=
  ⟨by decide, by decide⟩

/-- C1 (amended): with the trimmed text and date unchanged, a changed URL
does not alter the fingerprint (`sha1(text)[:10]` is a pure function of
the trimmed text) nor the filename; but the URL is embedded in the file
content, so for an already-imported row whose stored content is
carriage-return free (read-back equals the written content) the existing
file is seen as changed: it is overwritten and the updated counter is
incremented. -/
theorem c1_url_change_updates (today tc : String) (dc uc : Option String)
    (row1 row2 : Row) (st : MState)
    (htext : rowText tc row1 = rowText tc row2)
    (hne : rowText tc row2 ≠ "")
    (hdate : rowDateStr today dc row1 = rowDateStr today dc row2)
    (hurl : rowUrl uc row1 ≠ rowUrl uc row2)
    (hnl1 : univNL (rowContent today tc dc uc row1) =
      rowContent today tc dc uc row1)
    (hfs : fsRead st.fs (rowFname today tc dc row2) =
      some (rowContent today tc dc uc row1)) :
    rowDigest tc row1 = rowDigest tc row2 ∧
    rowFname today tc dc row1 = rowFname today tc dc row2 ∧
    rowContent today tc dc uc row1 ≠ rowContent today tc dc uc row2 ∧
    step today tc dc uc st row2 =
      ⟨fsWrite st.fs (rowFname today tc dc row2)
        (rowContent today tc dc uc row2), st.created, st.updated + 1⟩ := by
  have hdig : rowDigest tc row1 = rowDigest tc row2 := by
    unfold rowDigest
    rw [htext]
  have hfname : rowFname today tc dc row1 = rowFname today tc dc row2 := by
    unfold rowFname rowSlug rowDigest
    rw [htext, hdate]
  have hcont : rowContent today tc dc uc row1 ≠
      rowContent today tc dc uc row2 := by
    unfold rowContent
    rw [htext, hdate]
    exact mkContent_url_ne _ _ _ _ hurl
  refine ⟨hdig, hfname, hcont, ?_⟩
  unfold step
  rw [if_neg hne]
  dsimp only
  rw [hfs]
  dsimp only
  rw [hnl1, if_neg hcont]

set_option maxRecDepth 200000 in
theorem c1_witness :
    (rowText "Text" [("Text", "hi"), ("Url", "https://a")] =
        rowText "Text" [("Text", "hi"), ("Url", "https://b")] ∧
      rowText "Text" [("Text", "hi"), ("Url", "https://b")] ≠ "" ∧
      rowDateStr "2026-10-12" none [("Text", "hi"), ("Url", "https://a")] =
        rowDateStr "2026-10-12" none [("Text", "hi"), ("Url", "https://b")] ∧
      rowUrl (some "Url") [("Text", "hi"), ("Url", "https://a")] ≠
        rowUrl (some "Url") [("Text", "hi"), ("Url", "https://b")] ∧
      univNL (rowContent "2026-10-12" "Text" none (some "Url")
          [("Text", "hi"), ("Url", "https://a")]) =
        rowContent "2026-10-12" "Text" none (some "Url")
          [("Text", "hi"), ("Url", "https://a")] ∧
      fsRead (step "2026-10-12" "Text" none (some "Url") ⟨[], 0, 0⟩
          [("Text", "hi"), ("Url", "https://a")]).fs
          (rowFname "2026-10-12" "Text" none
            [("Text", "hi"), ("Url", "https://b")]) =
        some (rowContent "2026-10-12" "Text" none (some "Url")
          [("Text", "hi"), ("Url", "https://a")])) ∧
    (rowDigest "Text" [("Text", "hi"), ("Url", "https://a")] =
        rowDigest "Text" [("Text", "hi"), ("Url", "https://b")] ∧
      rowFname "2026-10-12" "Text" none [("Text", "hi"), ("Url", "https://a")] =
        rowFname "2026-10-12" "Text" none [("Text", "hi"), ("Url", "https://b")] ∧
      rowContent "2026-10-12" "Text" none (some "Url")
          [("Text", "hi"), ("Url", "https://a")] ≠
        rowContent "2026-10-12" "Text" none (some "Url")
          [("Text", "hi"), ("Url", "https://b")] ∧
      step "2026-10-12" "Text" none (some "Url")
          (step "2026-10-12" "Text" none (some "Url") ⟨[], 0, 0⟩
            [("Text", "hi"), ("Url", "https://a")])
          [("Text", "hi"), ("Url", "https://b")] =
        ⟨fsWrite (step "2026-10-12" "Text" none (some "Url") ⟨[], 0, 0⟩
            [("Text", "hi"), ("Url", "https://a")]).fs
          (rowFname "2026-10-12" "Text" none
            [("Text", "hi"), ("Url", "https://b")])
          (rowContent "2026-10-12" "Text" none (some "Url")
            [("Text", "hi"), ("Url", "https://b")]),
         (step "2026-10-12" "Text" none (some "Url") ⟨[], 0, 0⟩
            [("Text", "hi"), ("Url", "https://a")]).created,
         (step "2026-10-12" "Text" none (some "Url") ⟨[], 0, 0⟩
            [("Text", "hi"), ("Url", "https://a")]).updated + 1⟩) :=
  ⟨⟨by decide, by decide, by decide, by decide, by decide, by decide⟩,
   c1_url_change_updates "2026-10-12" "Text" none (some "Url")
     [("Text", "hi"), ("Url", "https://a")]
     [("Text", "hi"), ("Url", "https://b")]
     (step "2026-10-12" "Text" none (some "Url") ⟨[], 0, 0⟩
       [("Text", "hi"), ("Url", "https://a")])
     (by decide) (by decide) (by decide) (by decide) (by decide) (by decide)⟩

end LinkedinExport
